import Mathlib

/-!
Verification of the colour-science core: spectral-locus intersection,
dominant/complementary wavelength, purity metrics and coordinate
transforms.

The geometric pipeline of `colour/colorimetry/dominant.py` is embedded
over exact rationals (`ℚ`): chromaticity points are pairs of rationals,
fallible computations return `Except GeometryError`.  The purity metrics
are real-valued (they involve a square root).  Collaborator primitives
that live outside the verified sources (segment intersection, segment
extension, Euclidean distance, the XYZ → xy projection, and the
coordinate transforms) are modelled from the specification, as noted on
each definition.
-/

/-- A chromaticity point: a pair of exact rational coordinates. -/
abbrev P2 := ℚ × ℚ

/-- Modelled from the spec: the ray/segment-extension primitive
(`extend_line_segment`): returns a point far along the direction from
`a` to `b`, far enough to leave the chromaticity diagram (whose
coordinates are bounded by 1).  When `a = b` there is no direction and
the point `b` itself is returned. -/
def extend_line_segment (a b : P2) : P2 :=
  (b.1 + 100 * (b.1 - a.1), b.2 + 100 * (b.2 - a.2))

/-- Modelled from the spec: the line-segment-intersection primitive
(`intersect_line_segments`) on a single pair, in the standard parametric
form: segments `p`–`q` and `a`–`b` intersect when the solution
`(t, u)` of `p + t (q - p) = a + u (b - a)` has both parameters in
`[0, 1]`; parallel (zero-determinant) pairs are reported as
non-intersecting, matching the NaN sentinel that the source filters
out. -/
def intersectSegment (p q a b : P2) : Option P2 :=
  let r : P2 := (q.1 - p.1, q.2 - p.2)
  let s : P2 := (b.1 - a.1, b.2 - a.2)
  let d : ℚ := r.1 * s.2 - r.2 * s.1
  if d = 0 then none
  else
    let t : ℚ := ((a.1 - p.1) * s.2 - (a.2 - p.2) * s.1) / d
    let u : ℚ := ((a.1 - p.1) * r.2 - (a.2 - p.2) * r.1) / d
    if 0 ≤ t ∧ t ≤ 1 ∧ 0 ≤ u ∧ u ≤ 1 then
      some (p.1 + t * r.1, p.2 + t * r.2)
    else none

/-- The spectral locus closed into a loop by appending its first point,
mirroring `np.vstack((xy_s, xy_s[0, :]))`. -/
def closedLocus (xy_s : List P2) : List P2 :=
  match xy_s with
  | [] => []
  | h :: _ => xy_s ++ [h]

/-- `np.roll(l, 1)`: the last element moved to the front. -/
def roll1 (l : List P2) : List P2 :=
  match l with
  | [] => []
  | x :: xs => (x :: xs).getLastD x :: (x :: xs).dropLast

/-- Squared Euclidean distance between two rational points.  The
nearest-sample search of the source minimises Euclidean distances; the
square root is strictly monotone on nonnegative reals, so minimising
squared distances selects exactly the same (first-minimal) index. -/
def sqDist (a b : P2) : ℚ :=
  (a.1 - b.1) ^ 2 + (a.2 - b.2) ^ 2

/-- Minimum of a nonempty list of rationals (`0` on `[]`, unused). -/
def minL : List ℚ → ℚ
  | [] => 0
  | [x] => x
  | x :: xs => min x (minL xs)

/-- Index of the first minimal element, mirroring `np.argmin`. -/
def idxmin : List ℚ → ℕ
  | [] => 0
  | [_] => 0
  | x :: xs => if x ≤ minL xs then 0 else idxmin xs + 1

/-- The error raised when no valid ray/locus intersection exists; it
carries the offending coordinates, as the source's `ValueError` message
does. -/
structure GeometryError where
  xy : P2
  xy_n : P2
deriving DecidableEq, Repr

/-- The list of valid intersections of the extended ray with the edges
of the closed spectral locus, in edge order: the edge list pairs the
closed locus with its `np.roll` by one, and candidates whose
intersection is the NaN sentinel (here `none`) are filtered out. -/
def validIntersections (xy xy_n : P2) (xy_s : List P2) (reverse : Bool) : List P2 :=
  let xy_e := if reverse then extend_line_segment xy xy_n else extend_line_segment xy_n xy
  let c := closedLocus xy_s
  (c.zip (roll1 c)).filterMap (fun e => intersectSegment xy_n xy_e e.1 e.2)

/-- `closest_spectral_locus_wavelength` from `dominant.py`: extends the
ray from the achromatic point through the stimulus (or the reverse),
intersects it with every edge of the closed locus, errors when no valid
intersection remains, and otherwise returns the index of the closed-
locus sample nearest to the intersection point together with that
point. -/
def closest_spectral_locus_wavelength (xy xy_n : P2) (xy_s : List P2) (reverse : Bool) :
    Except GeometryError (ℕ × P2) :=
  match validIntersections xy xy_n xy_s reverse with
  | [] => .error ⟨xy, xy_n⟩
  | p :: _ => .ok (idxmin ((closedLocus xy_s).map (fun s => sqDist p s)), p)

/-- Modelled from the spec: the batched form of the search.  Batching
is data parallelism over independent elements (spec §4.2, §5): the
scalar search applied to each batch element. -/
def closest_spectral_locus_wavelength_batch (xys : List P2) (xy_n : P2)
    (xy_s : List P2) (reverse : Bool) : List (Except GeometryError (ℕ × P2)) :=
  xys.map (fun xy => closest_spectral_locus_wavelength xy xy_n xy_s reverse)

/-- A standard-observer colour-matching-function table: tristimulus
values and the parallel ordered wavelength sequence. -/
structure Cmfs where
  values : List (ℚ × ℚ × ℚ)
  wavelengths : List ℚ
deriving DecidableEq, Repr

/-- Modelled from the spec: the XYZ → xy chromaticity-projection
transform of the external models module. -/
def XYZ_to_xy (v : ℚ × ℚ × ℚ) : P2 :=
  (v.1 / (v.1 + v.2.1 + v.2.2), v.2.1 / (v.1 + v.2.1 + v.2.2))

/-- The per-element boolean of `dominant_wavelength` step 3: whether the
extended ray intersects the single purple-line edge from the first to
the last spectral-locus sample. -/
def purpleIntersect (xy xy_n : P2) (xy_s : List P2) (reverse : Bool) : Bool :=
  let xy_e := if reverse then extend_line_segment xy xy_n else extend_line_segment xy_n xy
  (intersectSegment xy_n xy_e (xy_s.headD (0, 0)) (xy_s.getLastD (0, 0))).isSome

/-- `dominant_wavelength` from `dominant.py`: the requested-direction
intersection gives the wavelength and first coordinate; the opposite
direction is always computed as well, and where the ray hits the
purple-line edge the negated reverse wavelength and the reverse
intersection replace the wavelength and the second coordinate. -/
def dominant_wavelength (xy xy_n : P2) (cmfs : Cmfs) (reverse : Bool) :
    Except GeometryError (ℚ × P2 × P2) :=
  let xy_s := cmfs.values.map XYZ_to_xy
  match closest_spectral_locus_wavelength xy xy_n xy_s reverse with
  | .error e => .error e
  | .ok (i_wl, xy_wl) =>
    match closest_spectral_locus_wavelength xy xy_n xy_s (!reverse) with
    | .error e => .error e
    | .ok (i_wl_r, xy_cwl_r) =>
      let wl := cmfs.wavelengths.getD i_wl 0
      let wl_r := -(cmfs.wavelengths.getD i_wl_r 0)
      let b := purpleIntersect xy xy_n xy_s reverse
      .ok (if b then wl_r else wl, xy_wl, if b then xy_cwl_r else xy_wl)

/-- `complementary_wavelength` from `dominant.py`: exactly
`dominant_wavelength` with the direction reversed. -/
def complementary_wavelength (xy xy_n : P2) (cmfs : Cmfs) :
    Except GeometryError (ℚ × P2 × P2) :=
  dominant_wavelength xy xy_n cmfs true

/-- Modelled from the spec: the Euclidean-distance primitive of the
external algebra module. -/
noncomputable def euclidean_distance (a b : P2) : ℝ :=
  Real.sqrt ((((a.1 - b.1) ^ 2 + (a.2 - b.2) ^ 2 : ℚ) : ℝ))

/-- `excitation_purity` from `dominant.py`: the ratio of the distance
from the achromatic point to the stimulus over the distance from the
achromatic point to the first intersection coordinate. -/
noncomputable def excitation_purity (xy xy_n : P2) (cmfs : Cmfs) :
    Except GeometryError ℝ :=
  match dominant_wavelength xy xy_n cmfs false with
  | .error e => .error e
  | .ok (_, xy_wl, _) =>
    .ok (euclidean_distance xy_n xy / euclidean_distance xy_n xy_wl)

/-- `colorimetric_purity` from `dominant.py`: the excitation purity
rescaled by the ratio of the second (luminance-like) components; the
source recomputes both `dominant_wavelength` and `excitation_purity`. -/
noncomputable def colorimetric_purity (xy xy_n : P2) (cmfs : Cmfs) :
    Except GeometryError ℝ :=
  match dominant_wavelength xy xy_n cmfs false with
  | .error e => .error e
  | .ok (_, xy_wl, _) =>
    match excitation_purity xy xy_n cmfs with
    | .error e => .error e
    | .ok pe => .ok (pe * (xy_wl.2 : ℝ) / (xy.2 : ℝ))

/-! ### Properties of the first-minimum index search -/

theorem minL_le : ∀ (l : List ℚ) (y : ℚ), y ∈ l → minL l ≤ y
  | [], _, hy => absurd hy (List.not_mem_nil _)
  | [x], y, hy => by
      rcases List.mem_singleton.mp hy with rfl
      exact le_of_eq rfl
  | x :: x2 :: xs, y, hy => by
      rcases List.mem_cons.mp hy with rfl | h
      · exact min_le_left _ _
      · exact le_trans (min_le_right _ _) (minL_le (x2 :: xs) y h)

theorem idxmin_lt_length : ∀ (l : List ℚ), l ≠ [] → idxmin l < l.length
  | [], h => absurd rfl h
  | [_], _ => Nat.zero_lt_one
  | x :: x2 :: xs, _ => by
      by_cases h : x ≤ minL (x2 :: xs)
      · simp [idxmin, h]
      · have ih := idxmin_lt_length (x2 :: xs) (by simp)
        simp only [List.length_cons] at ih
        simp only [idxmin, if_neg h, List.length_cons]
        omega

theorem getD_idxmin : ∀ (l : List ℚ), l ≠ [] → l.getD (idxmin l) 0 = minL l
  | [], h => absurd rfl h
  | [_], _ => rfl
  | x :: x2 :: xs, _ => by
      by_cases h : x ≤ minL (x2 :: xs)
      · simp only [idxmin, if_pos h, List.getD_cons_zero, minL]
        exact (min_eq_left h).symm
      · have ih := getD_idxmin (x2 :: xs) (by simp)
        simp only [idxmin, if_neg h, List.getD_cons_succ, ih, minL]
        exact (min_eq_right (le_of_lt (lt_of_not_le h))).symm

theorem minL_lt_getD : ∀ (l : List ℚ) (j : ℕ), j < idxmin l → minL l < l.getD j 0
  | [], j, hj => by simp [idxmin] at hj
  | [_], j, hj => by simp [idxmin] at hj
  | x :: x2 :: xs, j, hj => by
      by_cases h : x ≤ minL (x2 :: xs)
      · simp [idxmin, h] at hj
      · have hlt := lt_of_not_le h
        have hm : minL (x :: x2 :: xs) = minL (x2 :: xs) := by
          simp only [minL]
          exact min_eq_right hlt.le
        cases j with
        | zero => simpa [hm] using hlt
        | succ j2 =>
            simp only [idxmin, if_neg h] at hj
            have ih := minL_lt_getD (x2 :: xs) j2 (Nat.lt_of_succ_lt_succ hj)
            simpa [hm, List.getD_cons_succ] using ih

/-- The first-minimum index of a list whose last element repeats its
first never points at the last position: a tie with the final element
is always resolved to an earlier index. -/
theorem idxmin_concat_self (x : ℚ) (l : List ℚ) :
    idxmin (x :: (l ++ [x])) ≤ l.length := by
  have hne : (x :: (l ++ [x]) : List ℚ) ≠ [] := by simp
  have hlt := idxmin_lt_length (x :: (l ++ [x])) hne
  have hlen : (x :: (l ++ [x])).length = l.length + 2 := by simp
  by_contra hgt
  push_neg at hgt
  have heq : idxmin (x :: (l ++ [x])) = l.length + 1 := by omega
  have h0 : 0 < idxmin (x :: (l ++ [x])) := by omega
  have hstrict := minL_lt_getD (x :: (l ++ [x])) 0 h0
  have hgetlast : (x :: (l ++ [x])).getD (l.length + 1) 0 = x := by
    rw [List.getD_cons_succ, List.getD_append_right l [x] 0 l.length le_rfl]
    simp
  have hmin := getD_idxmin (x :: (l ++ [x])) hne
  rw [heq, hgetlast] at hmin
  rw [List.getD_cons_zero, ← hmin] at hstrict
  exact lt_irrefl x hstrict

/-! ### Structural facts about the intersection search -/

/-- A successful search returns an index into the original (un-closed)
locus and an intersection point drawn from the valid candidates. -/
theorem closest_ok_index (xy xy_n : P2) (xy_s : List P2) (reverse : Bool)
    (i : ℕ) (p : P2)
    (h : closest_spectral_locus_wavelength xy xy_n xy_s reverse = .ok (i, p)) :
    i < xy_s.length ∧ p ∈ validIntersections xy xy_n xy_s reverse := by
  unfold closest_spectral_locus_wavelength at h
  cases hv : validIntersections xy xy_n xy_s reverse with
  | nil => rw [hv] at h; exact absurd h (by simp)
  | cons p0 rest =>
    rw [hv] at h
    simp only [Except.ok.injEq, Prod.mk.injEq] at h
    obtain ⟨hi, hp⟩ := h
    cases hs : xy_s with
    | nil =>
        rw [hs] at hv
        simp [validIntersections, closedLocus, roll1] at hv
    | cons h0 t =>
        subst hs
        constructor
        · have hcl : closedLocus (h0 :: t) = h0 :: (t ++ [h0]) := by
            simp [closedLocus]
          have hmap : (closedLocus (h0 :: t)).map (fun s => sqDist p0 s)
              = sqDist p0 h0 ::
                ((t.map (fun s => sqDist p0 s)) ++ [sqDist p0 h0]) := by
            rw [hcl]
            simp [List.map_append]
          rw [← hi, hmap]
          have := idxmin_concat_self (sqDist p0 h0) (t.map (fun s => sqDist p0 s))
          simp only [List.length_map] at this
          simp only [List.length_cons]
          omega
        · rw [← hp]
          exact List.mem_cons_self p0 rest

/-- The degenerate stimulus `xy = xy_n` yields a zero-direction ray and
an empty candidate list, in either direction. -/
theorem validIntersections_self_eq_nil (xy_n : P2) (xy_s : List P2) (reverse : Bool) :
    validIntersections xy_n xy_n xy_s reverse = [] := by
  have hext : extend_line_segment xy_n xy_n = xy_n := by
    simp [extend_line_segment]
  have hnone : ∀ a b : P2, intersectSegment xy_n xy_n a b = none := by
    intro a b
    simp [intersectSegment]
  simp only [validIntersections, hext, ite_self, List.filterMap_eq_nil_iff]
  intro e _
  exact hnone e.1 e.2

/-- **C2.** `closest_spectral_locus_wavelength` raises its geometry
error, carrying the offending coordinates, exactly when no valid
intersection of the extended ray with the closed locus remains; for a
zero-length ray (`xy = xy_n`) it always raises; and the error path
returns no result. -/
theorem closest_spectral_locus_wavelength_error_characterisation
    (xy xy_n : P2) (xy_s : List P2) (reverse : Bool) :
    (closest_spectral_locus_wavelength xy xy_n xy_s reverse = .error ⟨xy, xy_n⟩ ↔
      validIntersections xy xy_n xy_s reverse = []) ∧
    (xy = xy_n →
      closest_spectral_locus_wavelength xy xy_n xy_s reverse = .error ⟨xy, xy_n⟩) ∧
    (∀ e r, closest_spectral_locus_wavelength xy xy_n xy_s reverse = .error e →
      closest_spectral_locus_wavelength xy xy_n xy_s reverse ≠ .ok r) := by
  refine ⟨?_, ?_, ?_⟩
  · unfold closest_spectral_locus_wavelength
    cases hv : validIntersections xy xy_n xy_s reverse <;> simp
  · intro hxy
    subst hxy
    unfold closest_spectral_locus_wavelength
    rw [validIntersections_self_eq_nil]
  · intro e r he
    rw [he]
    simp

/-- **C3.** `complementary_wavelength` is exactly `dominant_wavelength`
with the direction reversed, on every input. -/
theorem complementary_wavelength_eq_dominant_reverse
    (xy xy_n : P2) (cmfs : Cmfs) :
    complementary_wavelength xy xy_n cmfs = dominant_wavelength xy xy_n cmfs true := rfl

/-- **C6.** A returned wavelength-sample index is a valid index into
the original locus sequence (and hence into any parallel wavelength
sequence of the same length), even though the nearest-sample search
runs over the closed locus with the first sample appended; and the
batched search has exactly one result per batch element. -/
theorem closest_spectral_locus_wavelength_index_valid
    (xy xy_n : P2) (xy_s : List P2) (reverse : Bool) :
    (∀ i p, closest_spectral_locus_wavelength xy xy_n xy_s reverse = .ok (i, p) →
      i < xy_s.length ∧
      ∀ wls : List ℚ, wls.length = xy_s.length → i < wls.length) ∧
    (∀ xys : List P2,
      (closest_spectral_locus_wavelength_batch xys xy_n xy_s reverse).length
        = xys.length) := by
  constructor
  · intro i p h
    have hi := (closest_ok_index xy xy_n xy_s reverse i p h).1
    exact ⟨hi, fun wls hw => by omega⟩
  · intro xys
    simp [closest_spectral_locus_wavelength_batch]

/-- **C10.** The first intersection coordinate returned by
`dominant_wavelength` is the one found in the requested direction and
is never touched by the purple-line substitution: it is the
intersection point of the requested-direction search, a member of that
direction's valid ray/locus intersections. -/
theorem dominant_wavelength_first_intersection_unmodified
    (xy xy_n : P2) (cmfs : Cmfs) (reverse : Bool) (wl : ℚ) (p1 p2 : P2)
    (h : dominant_wavelength xy xy_n cmfs reverse = .ok (wl, p1, p2)) :
    (∃ i, closest_spectral_locus_wavelength xy xy_n (cmfs.values.map XYZ_to_xy) reverse
        = .ok (i, p1)) ∧
    p1 ∈ validIntersections xy xy_n (cmfs.values.map XYZ_to_xy) reverse := by
  unfold dominant_wavelength at h
  dsimp only at h
  cases hf : closest_spectral_locus_wavelength xy xy_n (cmfs.values.map XYZ_to_xy) reverse with
  | error e => rw [hf] at h; exact absurd h (by simp)
  | ok v =>
    obtain ⟨i, p⟩ := v
    cases hr : closest_spectral_locus_wavelength xy xy_n (cmfs.values.map XYZ_to_xy) (!reverse) with
    | error e => rw [hf, hr] at h; exact absurd h (by simp)
    | ok vr =>
      obtain ⟨ir, pr⟩ := vr
      rw [hf, hr] at h
      simp only [Except.ok.injEq, Prod.mk.injEq] at h
      obtain ⟨-, hp1, -⟩ := h
      subst hp1
      exact ⟨⟨i, rfl⟩, (closest_ok_index xy xy_n _ reverse i p hf).2⟩

/-- **C1.** With positive wavelength samples, `dominant_wavelength`
returns a negative wavelength exactly when the forward ray from the
achromatic point through the stimulus intersects the purple-line
closing edge; in that case the result is the negated reverse-direction
wavelength and the second intersection coordinate is the
reverse-direction intersection point, and otherwise the second
coordinate equals the first. -/
theorem dominant_wavelength_purple_sign
    (xy xy_n : P2) (cmfs : Cmfs) (wl : ℚ) (p1 p2 : P2)
    (hlen : cmfs.wavelengths.length = cmfs.values.length)
    (hw : ∀ w ∈ cmfs.wavelengths, 0 < w)
    (h : dominant_wavelength xy xy_n cmfs false = .ok (wl, p1, p2)) :
    (wl < 0 ↔ purpleIntersect xy xy_n (cmfs.values.map XYZ_to_xy) false = true) ∧
    (∀ i_r p_r,
      closest_spectral_locus_wavelength xy xy_n (cmfs.values.map XYZ_to_xy) true
          = .ok (i_r, p_r) →
      (purpleIntersect xy xy_n (cmfs.values.map XYZ_to_xy) false = true →
        wl = -(cmfs.wavelengths.getD i_r 0) ∧ p2 = p_r) ∧
      (purpleIntersect xy xy_n (cmfs.values.map XYZ_to_xy) false = false →
        p2 = p1)) := by
  unfold dominant_wavelength at h
  dsimp only at h
  cases hf : closest_spectral_locus_wavelength xy xy_n (cmfs.values.map XYZ_to_xy) false with
  | error e => rw [hf] at h; exact absurd h (by simp)
  | ok v =>
    obtain ⟨i, p⟩ := v
    cases hr : closest_spectral_locus_wavelength xy xy_n (cmfs.values.map XYZ_to_xy) (!false) with
    | error e => rw [hf, hr] at h; exact absurd h (by simp)
    | ok vr =>
      obtain ⟨ir, pr⟩ := vr
      rw [hf, hr] at h
      simp only [Except.ok.injEq, Prod.mk.injEq] at h
      obtain ⟨hwl, hp1, hp2⟩ := h
      have hif : i < cmfs.wavelengths.length := by
        have := (closest_ok_index _ _ _ _ _ _ hf).1
        simp only [List.length_map] at this
        omega
      have hir : ir < cmfs.wavelengths.length := by
        have := (closest_ok_index _ _ _ _ _ _ hr).1
        simp only [List.length_map] at this
        omega
      have hpos_f : 0 < cmfs.wavelengths.getD i 0 := by
        apply hw
        rw [List.getD_eq_getElem _ _ hif]
        exact List.getElem_mem hif
      have hpos_r : 0 < cmfs.wavelengths.getD ir 0 := by
        apply hw
        rw [List.getD_eq_getElem _ _ hir]
        exact List.getElem_mem hir
      simp only [Bool.not_false] at hr
      by_cases hb : purpleIntersect xy xy_n (cmfs.values.map XYZ_to_xy) false = true
      · rw [if_pos hb] at hwl
        rw [if_pos hb] at hp2
        refine ⟨⟨fun _ => hb, fun _ => ?_⟩, fun i_r p_r h2 => ?_⟩
        · rw [← hwl]
          exact neg_lt_zero.mpr hpos_r
        · rw [hr] at h2
          simp only [Except.ok.injEq, Prod.mk.injEq] at h2
          obtain ⟨h3, h4⟩ := h2
          subst h3
          subst h4
          refine ⟨fun _ => ⟨hwl.symm, hp2.symm⟩, fun hc => ?_⟩
          rw [hb] at hc
          exact absurd hc (by simp)
      · rw [if_neg hb] at hwl
        rw [if_neg hb] at hp2
        refine ⟨⟨fun hlt => ?_, fun htrue => absurd htrue hb⟩, fun i_r p_r h2 => ?_⟩
        · rw [← hwl] at hlt
          exact absurd hlt (not_lt.mpr hpos_f.le)
        · exact ⟨fun hc => absurd hc hb, fun _ => hp2.symm.trans hp1⟩

/-- **C4.** Whenever `dominant_wavelength` succeeds,
`excitation_purity` is the Euclidean distance from the achromatic point
to the stimulus divided by the Euclidean distance from the achromatic
point to the first intersection coordinate. -/
theorem excitation_purity_distance_ratio
    (xy xy_n : P2) (cmfs : Cmfs) (wl : ℚ) (p1 p2 : P2)
    (h : dominant_wavelength xy xy_n cmfs false = .ok (wl, p1, p2)) :
    excitation_purity xy xy_n cmfs
      = .ok (euclidean_distance xy_n xy / euclidean_distance xy_n p1) := by
  simp [excitation_purity, h]

/-- **C5.** Whenever `dominant_wavelength` succeeds and the stimulus's
second component is non-zero, `colorimetric_purity` is the excitation
purity multiplied by the second component of the first intersection
coordinate and divided by the second component of the stimulus. -/
theorem colorimetric_purity_rescaled
    (xy xy_n : P2) (cmfs : Cmfs) (wl : ℚ) (p1 p2 : P2)
    (hy : xy.2 ≠ 0)
    (h : dominant_wavelength xy xy_n cmfs false = .ok (wl, p1, p2)) :
    excitation_purity xy xy_n cmfs
      = .ok (euclidean_distance xy_n xy / euclidean_distance xy_n p1) ∧
    colorimetric_purity xy xy_n cmfs
      = .ok ((euclidean_distance xy_n xy / euclidean_distance xy_n p1)
          * (p1.2 : ℝ) / (xy.2 : ℝ)) := by
  refine ⟨?_, ?_⟩ <;> simp [excitation_purity, colorimetric_purity, h]

/-- **C7.** The geometry error of the intersection search is the only
error: the purity metrics fail exactly when `dominant_wavelength`
fails, with the same error, and whenever it succeeds they return a
value — their divisions are unguarded and never raise, even on
numerically degenerate inputs. -/
theorem purity_error_structure (xy xy_n : P2) (cmfs : Cmfs) :
    (∀ e, excitation_purity xy xy_n cmfs = .error e ↔
      dominant_wavelength xy xy_n cmfs false = .error e) ∧
    (∀ e, colorimetric_purity xy xy_n cmfs = .error e ↔
      dominant_wavelength xy xy_n cmfs false = .error e) ∧
    (∀ r, dominant_wavelength xy xy_n cmfs false = .ok r →
      (∃ v, excitation_purity xy xy_n cmfs = .ok v) ∧
      ∃ v, colorimetric_purity xy xy_n cmfs = .ok v) := by
  cases hd : dominant_wavelength xy xy_n cmfs false with
  | error e =>
      refine ⟨?_, ?_, ?_⟩ <;> simp [excitation_purity, colorimetric_purity, hd]
  | ok r =>
      obtain ⟨w, q1, q2⟩ := r
      refine ⟨?_, ?_, ?_⟩ <;> simp [excitation_purity, colorimetric_purity, hd]

/-! ### Coordinate transforms (modelled from the spec) -/

/-- Modelled from the spec: the two-argument arctangent used by the
coordinate transforms, the angle of the point `(x, y)` in `(-π, π]`,
realised as the complex argument. -/
noncomputable def atan2 (y x : ℝ) : ℝ := Complex.arg ⟨x, y⟩

/-- Modelled from the spec: `cartesian_to_spherical (x, y, z)` returns
the Euclidean norm, the inclination `atan2(z, hypot(x, y))`, and the
azimuth `atan2(y, x)`. -/
noncomputable def cartesian_to_spherical (v : ℝ × ℝ × ℝ) : ℝ × ℝ × ℝ :=
  (Real.sqrt (v.1 ^ 2 + v.2.1 ^ 2 + v.2.2 ^ 2),
   atan2 v.2.2 (Real.sqrt (v.1 ^ 2 + v.2.1 ^ 2)),
   atan2 v.2.1 v.1)

/-- Modelled from the spec: `spherical_to_cartesian (r, theta, phi)`
returns `(r cos theta cos phi, r cos theta sin phi, r sin theta)`. -/
noncomputable def spherical_to_cartesian (s : ℝ × ℝ × ℝ) : ℝ × ℝ × ℝ :=
  (s.1 * Real.cos s.2.1 * Real.cos s.2.2,
   s.1 * Real.cos s.2.1 * Real.sin s.2.2,
   s.1 * Real.sin s.2.1)

/-- Modelled from the spec: `cartesian_to_cylindrical (x, y, z)`
returns `(z, atan2(y, x), hypot(x, y))`, passthrough coordinate
first. -/
noncomputable def cartesian_to_cylindrical (v : ℝ × ℝ × ℝ) : ℝ × ℝ × ℝ :=
  (v.2.2, atan2 v.2.1 v.1, Real.sqrt (v.1 ^ 2 + v.2.1 ^ 2))

/-- Modelled from the spec: `cylindrical_to_cartesian (z, theta, rho)`
returns `(rho cos theta, rho sin theta, z)`. -/
noncomputable def cylindrical_to_cartesian (c : ℝ × ℝ × ℝ) : ℝ × ℝ × ℝ :=
  (c.2.2 * Real.cos c.2.1, c.2.2 * Real.sin c.2.1, c.1)

theorem cos_atan2_mul (y x : ℝ) :
    Real.cos (atan2 y x) * Real.sqrt (x ^ 2 + y ^ 2) = x := by
  by_cases h : (⟨x, y⟩ : ℂ) = 0
  · have hx : x = 0 := by simpa using congrArg Complex.re h
    have hy : y = 0 := by simpa using congrArg Complex.im h
    simp [atan2, h, Complex.arg_zero, hx, hy]
  · have habs : Complex.abs ⟨x, y⟩ = Real.sqrt (x ^ 2 + y ^ 2) := by
      rw [Complex.abs_apply, Complex.normSq_mk]
      ring_nf
    have hpos : 0 < Real.sqrt (x ^ 2 + y ^ 2) := by
      rw [← habs]
      exact Complex.abs.pos h
    rw [atan2, Complex.cos_arg h, habs]
    exact div_mul_cancel₀ x hpos.ne'

theorem sin_atan2_mul (y x : ℝ) :
    Real.sin (atan2 y x) * Real.sqrt (x ^ 2 + y ^ 2) = y := by
  by_cases h : (⟨x, y⟩ : ℂ) = 0
  · have hx : x = 0 := by simpa using congrArg Complex.re h
    have hy : y = 0 := by simpa using congrArg Complex.im h
    simp [atan2, h, Complex.arg_zero, hx, hy]
  · have habs : Complex.abs ⟨x, y⟩ = Real.sqrt (x ^ 2 + y ^ 2) := by
      rw [Complex.abs_apply, Complex.normSq_mk]
      ring_nf
    have hpos : 0 < Real.sqrt (x ^ 2 + y ^ 2) := by
      rw [← habs]
      exact Complex.abs.pos h
    rw [atan2, Complex.sin_arg, habs]
    exact div_mul_cancel₀ y hpos.ne'

/-- **C9.** The spherical and cylindrical transforms are exact
algebraic inverses of the Cartesian ones over the reals: both
round-trips restore every 3-vector exactly (hence within any floating
tolerance). -/
theorem coordinate_transform_roundtrip (v : ℝ × ℝ × ℝ) :
    spherical_to_cartesian (cartesian_to_spherical v) = v ∧
    cylindrical_to_cartesian (cartesian_to_cylindrical v) = v := by
  obtain ⟨x, y, z⟩ := v
  have hρ : Real.sqrt (x ^ 2 + y ^ 2) ^ 2 = x ^ 2 + y ^ 2 :=
    Real.sq_sqrt (by positivity)
  have hx := cos_atan2_mul y x
  have hy := sin_atan2_mul y x
  have hcosθ : Real.cos (atan2 z (Real.sqrt (x ^ 2 + y ^ 2)))
      * Real.sqrt (x ^ 2 + y ^ 2 + z ^ 2) = Real.sqrt (x ^ 2 + y ^ 2) := by
    have h2 := cos_atan2_mul z (Real.sqrt (x ^ 2 + y ^ 2))
    rwa [hρ] at h2
  have hsinθ : Real.sin (atan2 z (Real.sqrt (x ^ 2 + y ^ 2)))
      * Real.sqrt (x ^ 2 + y ^ 2 + z ^ 2) = z := by
    have h2 := sin_atan2_mul z (Real.sqrt (x ^ 2 + y ^ 2))
    rwa [hρ] at h2
  constructor
  · simp only [cartesian_to_spherical, spherical_to_cartesian, Prod.mk.injEq]
    refine ⟨?_, ?_, ?_⟩
    · calc Real.sqrt (x ^ 2 + y ^ 2 + z ^ 2)
            * Real.cos (atan2 z (Real.sqrt (x ^ 2 + y ^ 2)))
            * Real.cos (atan2 y x)
          = (Real.cos (atan2 z (Real.sqrt (x ^ 2 + y ^ 2)))
              * Real.sqrt (x ^ 2 + y ^ 2 + z ^ 2)) * Real.cos (atan2 y x) := by
            ring
        _ = Real.sqrt (x ^ 2 + y ^ 2) * Real.cos (atan2 y x) := by rw [hcosθ]
        _ = Real.cos (atan2 y x) * Real.sqrt (x ^ 2 + y ^ 2) := by ring
        _ = x := hx
    · calc Real.sqrt (x ^ 2 + y ^ 2 + z ^ 2)
            * Real.cos (atan2 z (Real.sqrt (x ^ 2 + y ^ 2)))
            * Real.sin (atan2 y x)
          = (Real.cos (atan2 z (Real.sqrt (x ^ 2 + y ^ 2)))
              * Real.sqrt (x ^ 2 + y ^ 2 + z ^ 2)) * Real.sin (atan2 y x) := by
            ring
        _ = Real.sqrt (x ^ 2 + y ^ 2) * Real.sin (atan2 y x) := by rw [hcosθ]
        _ = Real.sin (atan2 y x) * Real.sqrt (x ^ 2 + y ^ 2) := by ring
        _ = y := hy
    · calc Real.sqrt (x ^ 2 + y ^ 2 + z ^ 2)
            * Real.sin (atan2 z (Real.sqrt (x ^ 2 + y ^ 2)))
          = Real.sin (atan2 z (Real.sqrt (x ^ 2 + y ^ 2)))
              * Real.sqrt (x ^ 2 + y ^ 2 + z ^ 2) := by ring
        _ = z := hsinθ
  · simp only [cartesian_to_cylindrical, cylindrical_to_cartesian, Prod.mk.injEq]
    refine ⟨?_, ?_, trivial⟩
    · calc Real.sqrt (x ^ 2 + y ^ 2) * Real.cos (atan2 y x)
          = Real.cos (atan2 y x) * Real.sqrt (x ^ 2 + y ^ 2) := by ring
        _ = x := hx
    · calc Real.sqrt (x ^ 2 + y ^ 2) * Real.sin (atan2 y x)
          = Real.sin (atan2 y x) * Real.sqrt (x ^ 2 + y ^ 2) := by ring
        _ = y := hy

/-- **C8.** Batched operations act elementwise, independent of batch
shape: each coordinate transform maps a tiled batch to the tiled scalar
result, flattening a nested (reshaped) batch commutes with the batched
transform, and the batched intersection search agrees per element with
the scalar search. -/
theorem batch_elementwise_consistency :
    (∀ v : ℝ × ℝ × ℝ,
      (List.replicate 6 v).map cartesian_to_spherical
          = List.replicate 6 (cartesian_to_spherical v) ∧
      (List.replicate 6 v).map spherical_to_cartesian
          = List.replicate 6 (spherical_to_cartesian v) ∧
      (List.replicate 6 v).map cartesian_to_cylindrical
          = List.replicate 6 (cartesian_to_cylindrical v) ∧
      (List.replicate 6 v).map cylindrical_to_cartesian
          = List.replicate 6 (cylindrical_to_cartesian v)) ∧
    (∀ ll : List (List (ℝ × ℝ × ℝ)),
      (ll.map (fun m => m.map cartesian_to_spherical)).flatten
          = ll.flatten.map cartesian_to_spherical ∧
      (ll.map (fun m => m.map spherical_to_cartesian)).flatten
          = ll.flatten.map spherical_to_cartesian ∧
      (ll.map (fun m => m.map cartesian_to_cylindrical)).flatten
          = ll.flatten.map cartesian_to_cylindrical ∧
      (ll.map (fun m => m.map cylindrical_to_cartesian)).flatten
          = ll.flatten.map cylindrical_to_cartesian) ∧
    (∀ (xys : List P2) (xy_n : P2) (xy_s : List P2) (reverse : Bool) (i : ℕ),
      (closest_spectral_locus_wavelength_batch xys xy_n xy_s reverse).get? i
        = (xys.get? i).map
            (fun xy => closest_spectral_locus_wavelength xy xy_n xy_s reverse)) := by
  refine ⟨fun v => ⟨?_, ?_, ?_, ?_⟩, fun ll => ⟨?_, ?_, ?_, ?_⟩,
    fun xys xy_n xy_s reverse i => ?_⟩
  · simp
  · simp
  · simp
  · simp
  · exact (List.map_flatten _ _).symm
  · exact (List.map_flatten _ _).symm
  · exact (List.map_flatten _ _).symm
  · exact (List.map_flatten _ _).symm
  · simp [closest_spectral_locus_wavelength_batch, List.get?_map]

/-! ### Concrete instantiation data

A miniature modelled locus (four samples surrounding the achromatic
point `(1/2, 1/2)`, closed by a purple edge from the first sample back
to the last) used to exercise the theorems on concrete inputs.  The
tristimulus triples project under `XYZ_to_xy` exactly onto the locus
points. -/

def mLocus : List P2 := [(1/4, 0), (0, 1/2), (1/2, 1), (1, 1/2)]

def mCmfs : Cmfs :=
  { values := [(1/4, 0, 3/4), (0, 1/2, 1/2), (1/2, 1, -1/2), (1, 1/2, -1/2)]
  , wavelengths := [400, 500, 600, 700] }

theorem mCmfs_wl_pos : ∀ w ∈ mCmfs.wavelengths, 0 < w := by
  intro w hw
  simp [mCmfs] at hw
  rcases hw with rfl | rfl | rfl | rfl <;> norm_num

theorem closest_eval_forward :
    closest_spectral_locus_wavelength (2/5, 3/4) (1/2, 1/2) mLocus false
      = .ok (2, (5/14, 6/7)) := by
  norm_num [closest_spectral_locus_wavelength, validIntersections, closedLocus, roll1,
    intersectSegment, extend_line_segment, mLocus, idxmin, minL, sqDist,
    List.zip, List.zipWith, List.filterMap, List.getLastD, List.dropLast]

theorem dominant_eval_forward :
    dominant_wavelength (2/5, 3/4) (1/2, 1/2) mCmfs false
      = .ok (600, ((5/14, 6/7), (5/14, 6/7))) := by
  norm_num [dominant_wavelength, closest_spectral_locus_wavelength, validIntersections,
    closedLocus, roll1, intersectSegment, extend_line_segment, mCmfs, idxmin, minL,
    sqDist, purpleIntersect, XYZ_to_xy,
    List.zip, List.zipWith, List.filterMap, List.getLastD, List.dropLast]

theorem dominant_eval_purple :
    dominant_wavelength (13/25, 0) (1/2, 1/2) mCmfs false
      = .ok (-600, ((79/154, 27/154), (25/52, 51/52))) := by
  norm_num [dominant_wavelength, closest_spectral_locus_wavelength, validIntersections,
    closedLocus, roll1, intersectSegment, extend_line_segment, mCmfs, idxmin, minL,
    sqDist, purpleIntersect, XYZ_to_xy,
    List.zip, List.zipWith, List.filterMap, List.getLastD, List.dropLast]

theorem dominant_eval_degenerate :
    dominant_wavelength (1/2, 1/2) (1/2, 1/2) mCmfs false
      = .error ⟨(1/2, 1/2), (1/2, 1/2)⟩ := by
  norm_num [dominant_wavelength, closest_spectral_locus_wavelength, validIntersections,
    closedLocus, roll1, intersectSegment, extend_line_segment, mCmfs, idxmin, minL,
    sqDist, purpleIntersect, XYZ_to_xy,
    List.zip, List.zipWith, List.filterMap, List.getLastD, List.dropLast]

/-- Collinearity-and-bounding-box membership of a point on a closed
segment; used to check that a first intersection lies on the line of
purples. -/
def onSegment (p a b : P2) : Prop :=
  (b.1 - a.1) * (p.2 - a.2) - (b.2 - a.2) * (p.1 - a.1) = 0 ∧
  min a.1 b.1 ≤ p.1 ∧ p.1 ≤ max a.1 b.1 ∧
  min a.2 b.2 ≤ p.2 ∧ p.2 ≤ max a.2 b.2

/-! ### Witnesses -/

/-- Witness for C1: at the modelled locus, the stimulus below the
purple edge produces a negative wavelength with the purple test firing,
and the stimulus on the green side produces a positive one with the
purple test not firing. -/
theorem dominant_wavelength_purple_sign_witness :
    ((-600 : ℚ) < 0 ↔
      purpleIntersect (13/25, 0) (1/2, 1/2) (mCmfs.values.map XYZ_to_xy) false = true) ∧
    ((600 : ℚ) < 0 ↔
      purpleIntersect (2/5, 3/4) (1/2, 1/2) (mCmfs.values.map XYZ_to_xy) false = true) :=
  ⟨(dominant_wavelength_purple_sign (13/25, 0) (1/2, 1/2) mCmfs (-600)
      (79/154, 27/154) (25/52, 51/52) rfl mCmfs_wl_pos dominant_eval_purple).1,
   (dominant_wavelength_purple_sign (2/5, 3/4) (1/2, 1/2) mCmfs 600
      (5/14, 6/7) (5/14, 6/7) rfl mCmfs_wl_pos dominant_eval_forward).1⟩

/-- Witness for C2: the degenerate zero-length ray raises the geometry
error carrying the offending coordinates. -/
theorem closest_spectral_locus_wavelength_error_characterisation_witness :
    closest_spectral_locus_wavelength (1/2, 1/2) (1/2, 1/2) mLocus false
      = .error ⟨(1/2, 1/2), (1/2, 1/2)⟩ :=
  (closest_spectral_locus_wavelength_error_characterisation
    (1/2, 1/2) (1/2, 1/2) mLocus false).2.1 rfl

/-- Witness for C4: the excitation purity at a concrete successful
input is the stated distance ratio. -/
theorem excitation_purity_distance_ratio_witness :
    excitation_purity (2/5, 3/4) (1/2, 1/2) mCmfs
      = .ok (euclidean_distance (1/2, 1/2) (2/5, 3/4)
          / euclidean_distance (1/2, 1/2) (5/14, 6/7)) :=
  excitation_purity_distance_ratio (2/5, 3/4) (1/2, 1/2) mCmfs 600
    (5/14, 6/7) (5/14, 6/7) dominant_eval_forward

/-- Witness for C5: the colorimetric purity at a concrete successful
input with non-zero second component is the excitation purity rescaled
by the component ratio. -/
theorem colorimetric_purity_rescaled_witness :
    excitation_purity (2/5, 3/4) (1/2, 1/2) mCmfs
      = .ok (euclidean_distance (1/2, 1/2) (2/5, 3/4)
          / euclidean_distance (1/2, 1/2) (5/14, 6/7)) ∧
    colorimetric_purity (2/5, 3/4) (1/2, 1/2) mCmfs
      = .ok ((euclidean_distance (1/2, 1/2) (2/5, 3/4)
          / euclidean_distance (1/2, 1/2) (5/14, 6/7))
          * (((6/7 : ℚ)) : ℝ) / (((3/4 : ℚ)) : ℝ)) :=
  colorimetric_purity_rescaled (2/5, 3/4) (1/2, 1/2) mCmfs 600
    (5/14, 6/7) (5/14, 6/7) (by norm_num) dominant_eval_forward

/-- Witness for C6: a concrete successful search returns index 2, a
valid index into the four-sample locus, and a two-element batch yields
two results. -/
theorem closest_spectral_locus_wavelength_index_valid_witness :
    2 < mLocus.length ∧
    (closest_spectral_locus_wavelength_batch [(2/5, 3/4), (13/25, 0)]
      (1/2, 1/2) mLocus false).length = 2 :=
  ⟨((closest_spectral_locus_wavelength_index_valid (2/5, 3/4) (1/2, 1/2) mLocus false).1
      2 (5/14, 6/7) closest_eval_forward).1,
   (closest_spectral_locus_wavelength_index_valid (2/5, 3/4) (1/2, 1/2) mLocus false).2
      [(2/5, 3/4), (13/25, 0)]⟩

/-- Witness for C7: on the zero-length ray the only error surfacing
through `excitation_purity` is the geometry error itself, and on a
stimulus with zero second component (an unguarded division) the purity
metrics still return a value. -/
theorem purity_error_structure_witness :
    excitation_purity (1/2, 1/2) (1/2, 1/2) mCmfs
      = .error ⟨(1/2, 1/2), (1/2, 1/2)⟩ ∧
    ((13/25 : ℚ), (0 : ℚ)).2 = 0 ∧
    (∃ v, excitation_purity (13/25, 0) (1/2, 1/2) mCmfs = .ok v) ∧
    (∃ v, colorimetric_purity (13/25, 0) (1/2, 1/2) mCmfs = .ok v) :=
  ⟨((purity_error_structure (1/2, 1/2) (1/2, 1/2) mCmfs).1
      ⟨(1/2, 1/2), (1/2, 1/2)⟩).mpr dominant_eval_degenerate,
   rfl,
   ((purity_error_structure (13/25, 0) (1/2, 1/2) mCmfs).2.2
      (-600, ((79/154, 27/154), (25/52, 51/52))) dominant_eval_purple).1,
   ((purity_error_structure (13/25, 0) (1/2, 1/2) mCmfs).2.2
      (-600, ((79/154, 27/154), (25/52, 51/52))) dominant_eval_purple).2⟩

/-- Witness for C10: in the concrete purple-substitution case the first
returned coordinate is the forward intersection, drawn from the forward
candidates, and it lies on the line of purples while the substitution
fires. -/
theorem dominant_wavelength_first_intersection_unmodified_witness :
    (∃ i, closest_spectral_locus_wavelength (13/25, 0) (1/2, 1/2)
        (mCmfs.values.map XYZ_to_xy) false = .ok (i, (79/154, 27/154))) ∧
    ((79/154 : ℚ), (27/154 : ℚ))
      ∈ validIntersections (13/25, 0) (1/2, 1/2) (mCmfs.values.map XYZ_to_xy) false ∧
    purpleIntersect (13/25, 0) (1/2, 1/2) (mCmfs.values.map XYZ_to_xy) false = true ∧
    onSegment (79/154, 27/154) ((mCmfs.values.map XYZ_to_xy).headD (0, 0))
      ((mCmfs.values.map XYZ_to_xy).getLastD (0, 0)) := by
  have h := dominant_wavelength_first_intersection_unmodified (13/25, 0) (1/2, 1/2)
    mCmfs false (-600) (79/154, 27/154) (25/52, 51/52) dominant_eval_purple
  refine ⟨h.1, h.2, ?_, ?_⟩
  · norm_num [purpleIntersect, intersectSegment, extend_line_segment, mCmfs, XYZ_to_xy,
      List.getLastD]
  · norm_num [onSegment, mCmfs, XYZ_to_xy, List.getLastD]
